import Mathlib

/-!
Verification of the steam market listing parser (`steam_parser.py`) against its
natural-language specification.  The Python source is shallowly embedded:
strings are `List Char`, regular-expression searches over the handful of fixed
patterns in the source are implemented as executable scanning functions, and
the stateful scan loop is modelled by explicit recursion over a script of
network outcomes.
-/

namespace Steam

/-! ## Python string primitives -/

/-- Whitespace recognised by Python's `str.strip` and by `\s` in the source's
regular expressions (ASCII range). -/
def isPySpace (c : Char) : Bool :=
  c = ' ' || c = '\t' || c = '\n' || c = '\r' || c = '\x0b' || c = '\x0c'

/-- Python `str.strip()`: drop whitespace from both ends. -/
def pyStrip (s : List Char) : List Char :=
  ((s.dropWhile isPySpace).reverse.dropWhile isPySpace).reverse

/-- Scanner for `re.sub(r'<[^>]+>', '', value)`.  The first argument is
`none` outside a candidate tag and `some buf` (reversed body read so far)
after an unmatched `<`.  A span from `<` to the next `>` with a non-empty
body is removed; a lone `<` with no later `>` (or an immediate `>`) is kept
literally, exactly as the leftmost-match semantics of `re.sub` gives. -/
def stripTagsGo : Option (List Char) → List Char → List Char
  | none, [] => []
  | none, c :: rest =>
    if c = '<' then stripTagsGo (some []) rest else c :: stripTagsGo none rest
  | some buf, [] => '<' :: buf.reverse
  | some buf, c :: rest =>
    if c = '>' then
      if buf = [] then '<' :: '>' :: stripTagsGo none rest
      else stripTagsGo none rest
    else stripTagsGo (some (c :: buf)) rest

/-- Removal of HTML-markup spans, `re.sub(r'<[^>]+>', '', value)`. -/
def stripHtml (s : List Char) : List Char :=
  stripTagsGo none s

/-- The `clean` value computed throughout the source:
`re.sub(r'<[^>]+>', '', value).strip()`. -/
def cleanOf (value : String) : List Char :=
  pyStrip (stripHtml value.toList)

/-- Python substring test `needle in hay` (contiguous substring). -/
def containsSub (needle : List Char) : List Char → Bool
  | [] => needle.isEmpty
  | c :: rest => List.isPrefixOf needle (c :: rest) || containsSub needle rest

/-- Lower-casing of one character as Python `str.lower` acts on the
characters appearing in this program: ASCII letters and the Cyrillic
ranges used by the locale patterns. -/
def pyLower (c : Char) : Char :=
  if 'A' ≤ c ∧ c ≤ 'Z' then Char.ofNat (c.toNat + 32)
  else if 'А' ≤ c ∧ c ≤ 'Я' then Char.ofNat (c.toNat + 32)
  else if c = 'Ё' then 'ё'
  else c

/-- Case-insensitive substring test (both sides lower-cased), used to state
the specification's "case-insensitive" wording. -/
def containsCI (needle hay : List Char) : Bool :=
  containsSub (needle.map pyLower) (hay.map pyLower)

/-! ## Embedded regular-expression patterns

Each fixed pattern of the source is an executable matcher.  `matchFirstCI`
handles the `[Xx]yz` literals (first letter in either case, rest exact);
`ws1` is `\s+` and `num1` is the captured `(\d+)` group.  Since in every
pattern of the source `\s+` is followed by a non-whitespace token and
`(\d+)` is final, greedy matching without backtracking coincides with
Python's semantics. -/

/-- Match an exact literal at the head, returning the remainder. -/
def matchExact : List Char → List Char → Option (List Char)
  | [], l => some l
  | _ :: _, [] => none
  | p :: ps, c :: cs => if c = p then matchExact ps cs else none

/-- Match a literal whose first character may be upper or lower case
(the `[Uu]pgrade`-style character classes of the source). -/
def matchFirstCI : List Char → List Char → Option (List Char)
  | [], l => some l
  | _ :: _, [] => none
  | p :: ps, c :: cs =>
    if c = p ∨ c = pyLower p then matchExact ps cs else none

/-- Match `\s+`: at least one whitespace character, greedily. -/
def ws1 : List Char → Option (List Char)
  | [] => none
  | c :: rest => if isPySpace c then some (rest.dropWhile isPySpace) else none

/-- Match `[- ]`: exactly one hyphen or space. -/
def hyphenOrSpace : List Char → Option (List Char)
  | [] => none
  | c :: rest => if c = '-' ∨ c = ' ' then some rest else none

/-- Decimal value of a digit run. -/
def digitsToNat (ds : List Char) : Nat :=
  ds.foldl (fun n c => n * 10 + (c.toNat - 48)) 0

/-- Match the final captured group `(\d+)`: at least one digit, greedily,
returning its decimal value. -/
def num1 : List Char → Option Nat
  | [] => none
  | c :: rest =>
    if c.isDigit then some (digitsToNat (c :: rest.takeWhile Char.isDigit))
    else none

/-- Leftmost search: try the anchored matcher at every position, as
`re.search` does. -/
def searchWith (m : List Char → Option Nat) : List Char → Option Nat
  | [] => none
  | c :: rest =>
    match m (c :: rest) with
    | some n => some n
    | none => searchWith m rest

/-- Anchored matcher for `[Uu]pgrade\s+[Ss]tyle\s+(\d+)`. -/
def enUpgradeAt (l : List Char) : Option Nat :=
  (((((matchFirstCI "Upgrade".toList l).bind ws1).bind
    (matchFirstCI "Style".toList)).bind ws1).bind num1)

/-- Anchored matcher for `[Ss]tyle\s+(\d+)`. -/
def enStyleAt (l : List Char) : Option Nat :=
  (((matchFirstCI "Style".toList l).bind ws1).bind num1)

/-- Anchored matcher for `[Сс]тиль[- ]улучшение\s+(\d+)`. -/
def ruStyleAt (l : List Char) : Option Nat :=
  (((((matchFirstCI "Стиль".toList l).bind hyphenOrSpace).bind
    (matchExact "улучшение".toList)).bind ws1).bind num1)

/-- Anchored matcher for the tag pattern `[Ss]tyle(?:\s+[Uu]pgrade)?\s+(\d+)`:
the optional group is tried first, exactly as the regex engine does. -/
def tagEnAt (l : List Char) : Option Nat :=
  (matchFirstCI "Style".toList l).bind fun r =>
    match ((((ws1 r).bind (matchFirstCI "Upgrade".toList)).bind ws1).bind num1) with
    | some n => some n
    | none => (ws1 r).bind num1

/-- Truth of `re.search(r'[Ll]ocked|[Зз]аблокировано|[Зз]аблоковано', clean)`:
an alternation of literals holds iff one of them is a substring. -/
def lockedSearch (clean : List Char) : Bool :=
  containsSub "Locked".toList clean || containsSub "locked".toList clean ||
  containsSub "Заблокировано".toList clean || containsSub "заблокировано".toList clean ||
  containsSub "Заблоковано".toList clean || containsSub "заблоковано".toList clean

/-! ## Attribute extractor (`extract_unlocked_styles`, gems, tags) -/

/-- One entry of an asset's `descriptions` array: the `type` and `value`
fields read by the source (`desc.get("type")`, `desc.get("value", "")`),
with an absent field modelled by `""`. -/
structure Desc where
  type : String
  value : String
deriving DecidableEq

/-- Style number contributed by one description entry in
`extract_unlocked_styles`: strip markup, skip the entry when the locked
marker matches, otherwise try the EN "Upgrade Style", EN "Style" and RU
"Стиль-улучшение" patterns in this order, stopping at the first match. -/
def entryStyle (value : String) : Option Nat :=
  let clean := cleanOf value
  if lockedSearch clean then none
  else
    match searchWith enUpgradeAt clean with
    | some n => some n
    | none =>
      match searchWith enStyleAt clean with
      | some n => some n
      | none => searchWith ruStyleAt clean

/-- The `if style_num not in styles: styles.append(style_num)` step. -/
def addStyle (styles : List Nat) (n : Nat) : List Nat :=
  if n ∈ styles then styles else styles ++ [n]

/-- The accumulation loop of `extract_unlocked_styles`. -/
def collectStyles : List Desc → List Nat → List Nat
  | [], styles => styles
  | d :: rest, styles =>
    match entryStyle d.value with
    | some n => collectStyles rest (addStyle styles n)
    | none => collectStyles rest styles

/-- Translation of `extract_unlocked_styles` (steam_parser.py lines
184-230): collect deduplicated style numbers entry by entry, then
`sorted(styles)`. -/
def extract_unlocked_styles (descriptions : List Desc) : List Nat :=
  List.insertionSort (· ≤ ·) (collectStyles descriptions [])

/-- Gem string contributed by one entry in `extract_gems_from_descriptions`:
the first branch tests `"Prismatic:" in value or "Ethereal:" in value` on the
raw value, the second branch tests `desc.get("type") == "html"` together with
`"color" in value`, and keeps the stripped text only if it mentions a gem. -/
def gemFromDesc (d : Desc) : Option (List Char) :=
  let v := d.value.toList
  if containsSub "Prismatic:".toList v || containsSub "Ethereal:".toList v then
    let clean := cleanOf d.value
    if clean = [] then none else some clean
  else if d.type = "html" && containsSub "color".toList v then
    let clean := cleanOf d.value
    if clean ≠ [] && (containsSub "Gem".toList clean ||
        containsSub "Prismatic".toList clean || containsSub "Ethereal".toList clean) then
      some clean
    else none
  else none

/-- Translation of `extract_gems_from_descriptions` (lines 137-162). -/
def extract_gems_from_descriptions (descriptions : List Desc) : List (List Char) :=
  descriptions.filterMap gemFromDesc

/-- The section trigger of `extract_socket_gems` line 175:
`"Socket" in value or "Gem" in value` on the raw value. -/
def socketTrigger (d : Desc) : Bool :=
  containsSub "Socket".toList d.value.toList || containsSub "Gem".toList d.value.toList

/-- The collection step of `extract_socket_gems` lines 178-180: keep the
stripped text unless it is empty or the literal `"Empty Socket"`. -/
def socketCollect (d : Desc) : Option (List Char) :=
  let clean := cleanOf d.value
  if clean ≠ [] && clean ≠ "Empty Socket".toList then some clean else none

/-- Loop of `extract_socket_gems`: the flag records `in_socket_section`,
set before the collection test of the same iteration. -/
def socketGemsGo : Bool → List Desc → List (List Char)
  | _, [] => []
  | inSec, d :: rest =>
    let inSec' := inSec || socketTrigger d
    if inSec' then
      match socketCollect d with
      | some clean => clean :: socketGemsGo inSec' rest
      | none => socketGemsGo inSec' rest
    else socketGemsGo inSec' rest

/-- Translation of `extract_socket_gems` (lines 164-182). -/
def extract_socket_gems (descriptions : List Desc) : List (List Char) :=
  socketGemsGo false descriptions

/-- Gems of a listing as computed in `_process_page_listings` lines 373-376:
the description-based extractor, with the socket scanner as fallback when it
finds nothing. -/
def listingGems (descriptions : List Desc) : List (List Char) :=
  let gems := extract_gems_from_descriptions descriptions
  if gems = [] then extract_socket_gems descriptions else gems

/-- One entry of an asset's `tags` array. -/
structure Tag where
  localized_tag_name : String
  name : String
deriving DecidableEq

/-- The string scanned for a tag:
`tag.get("localized_tag_name", "") or tag.get("name", "")` (Python `or`
falls through on the empty string). -/
def tagName (t : Tag) : String :=
  if t.localized_tag_name = "" then t.name else t.localized_tag_name

/-- Per-tag update of `max_style` in `get_max_style_from_tags`: the first
match of the EN pattern and the first match of the RU pattern each raise the
maximum when larger. -/
def tagStep (mx : Nat) (t : Tag) : Nat :=
  let nm := (tagName t).toList
  let mx1 := match searchWith tagEnAt nm with
    | some n => max mx n
    | none => mx
  match searchWith ruStyleAt nm with
  | some n => max mx1 n
  | none => mx1

/-- Translation of `get_max_style_from_tags` (lines 232-256). -/
def get_max_style_from_tags (tags : List Tag) : Option Nat :=
  if tags = [] then none
  else
    let m := tags.foldl tagStep 0
    if 0 < m then some m else none

/-- Styles of a listing as computed in `_process_page_listings` lines
378-385: description extraction, falling back to `range(1, max_style + 1)`
over the tag-derived maximum when empty.  `get_max_style_from_tags` only
returns positive numbers, so `if max_style:` is the `some` case. -/
def normalizedStyles (descriptions : List Desc) (tags : List Tag) : List Nat :=
  let styles := extract_unlocked_styles descriptions
  if styles = [] then
    match get_max_style_from_tags tags with
    | some k => List.range' 1 k
    | none => []
  else styles

/-! ## Listing normalizer and filter engine (`_process_page_listings`)

Identifiers are kept as strings (the Python code passes every asset key
through `str`).  The inspect-link and image-url outputs of the normalizer
are not modelled: no claim concerns them. -/

/-- Raw listing record: the fields read by `_process_page_listings`, each
`Option` standing for presence in the JSON dictionary.  `asset_appid`,
`asset_contextid` and `asset_id` are the (stringified) members of the
nested `asset` record, with code defaults `self.app_id`, `"2"` and `""`. -/
structure RawListing where
  converted_price : Option Nat
  converted_fee : Option Nat
  asset_appid : Option String
  asset_contextid : Option String
  asset_id : Option String
deriving DecidableEq

/-- Asset description record: the fields read by the normalizer. -/
structure AssetDesc where
  market_hash_name : Option String
  descriptions : List Desc
  tags : List Tag
deriving DecidableEq

/-- The nested `assets` mapping `appId → contextId → assetId → record`,
modelled as an association list on the key triple. -/
abbrev Assets := List ((String × String × String) × AssetDesc)

/-- Nested dictionary lookup of lines 355-360. -/
def lookupAsset (assets : Assets) (a c i : String) : Option AssetDesc :=
  (assets.find? (fun p => decide (p.1 = (a, c, i)))).map (·.2)

/-- Asset description located for a listing (lines 349-360), with the
source's defaults for absent asset keys. -/
def assetOf (appIdDefault : String) (assets : Assets) (rec : RawListing) : Option AssetDesc :=
  lookupAsset assets (rec.asset_appid.getD appIdDefault)
    (rec.asset_contextid.getD "2") (rec.asset_id.getD "")

/-- Gems of a listing: empty when no asset description is located. -/
def gemsOf (appIdDefault : String) (assets : Assets) (rec : RawListing) : List (List Char) :=
  match assetOf appIdDefault assets rec with
  | some d => listingGems d.descriptions
  | none => []

/-- Styles of a listing: empty when no asset description is located. -/
def stylesOf (appIdDefault : String) (assets : Assets) (rec : RawListing) : List Nat :=
  match assetOf appIdDefault assets rec with
  | some d => normalizedStyles d.descriptions d.tags
  | none => []

/-- Name of a listing: `market_hash_name` when an asset description is
located, else the searched item name (line 369). -/
def nameOf (appIdDefault : String) (assets : Assets) (item_name : String)
    (rec : RawListing) : String :=
  match assetOf appIdDefault assets rec with
  | some d => d.market_hash_name.getD item_name
  | none => item_name

/-- Price in cents, line 341:
`listing.get("converted_price", 0) + listing.get("converted_fee", 0)`. -/
def priceCentsOf (rec : RawListing) : Nat :=
  rec.converted_price.getD 0 + rec.converted_fee.getD 0

/-- The price rejection test of line 346, `max_price > 0 and price_usd >
max_price`, with the Python floats modelled as exact rationals
(`price_usd = price_cents / 100.0`). -/
def priceRejected (max_price : ℚ) (rec : RawListing) : Bool :=
  decide (0 < max_price ∧ max_price < (priceCentsOf rec : ℚ) / 100)

/-- Filter criteria: `desired_gems`/`desired_styles` with `None` and `[]`
both modelled by the empty list (Python tests bare truthiness), and the
maximum price in USD as an exact rational. -/
structure Criteria where
  desired_gems : List String
  desired_styles : List Nat
  max_price : ℚ
deriving DecidableEq

/-- The gems filter test of lines 403-409: some desired name, lower-cased,
is a substring of some lower-cased gem string. -/
def gemsMatch (gems : List (List Char)) (desired : List String) : Bool :=
  let gems_lower := gems.map (List.map pyLower)
  desired.any fun d => gems_lower.any fun g => containsSub (d.toList.map pyLower) g

/-- The styles filter test of line 418: `any(s in styles for s in
desired_styles)`. -/
def stylesMatch (styles : List Nat) (desired : List Nat) : Bool :=
  desired.any fun s => styles.contains s

/-- Normalized listing as returned by `_process_page_listings`
(lines 430-441), restricted to the fields the claims concern. -/
structure FoundItem where
  name : String
  price_cents : Nat
  price_value : ℚ
  listing_id : String
  gems : List (List Char)
  styles : List Nat
  page : Nat
deriving DecidableEq

/-- Normalization and filtering of one not-yet-notified listing: the body of
the loop of `_process_page_listings` after the notified-set check, with the
three `continue`-guards in source order (price, gems, styles). -/
def processListing (appIdDefault : String) (assets : Assets) (item_name : String)
    (crit : Criteria) (page_num : Nat) (listing_id : String) (rec : RawListing) :
    Option FoundItem :=
  if priceRejected crit.max_price rec then none
  else if crit.desired_gems ≠ [] ∧
      gemsMatch (gemsOf appIdDefault assets rec) crit.desired_gems = false then none
  else if crit.desired_styles ≠ [] ∧
      stylesMatch (stylesOf appIdDefault assets rec) crit.desired_styles = false then none
  else some
    { name := nameOf appIdDefault assets item_name rec
      price_cents := priceCentsOf rec
      price_value := (priceCentsOf rec : ℚ) / 100
      listing_id := listing_id
      gems := gemsOf appIdDefault assets rec
      styles := stylesOf appIdDefault assets rec
      page := page_num }

/-- Translation of `_process_page_listings` (lines 328-451): each listing is
first checked against the notified set (line 337) and only then normalized
and filtered. -/
def processPage (appIdDefault : String) (listinginfo : List (String × RawListing))
    (assets : Assets) (item_name : String) (crit : Criteria)
    (notified : List String) (page_num : Nat) : List FoundItem :=
  listinginfo.filterMap fun p =>
    if p.1 ∈ notified then none
    else processListing appIdDefault assets item_name crit page_num p.1 p.2

/-- Translation of `mark_as_notified` (lines 453-455): set insertion of a
listing identifier, the only operation that writes the notified set. -/
def mark_as_notified (notified : List String) (listing_id : String) : List String :=
  if listing_id ∈ notified then notified else notified ++ [listing_id]

/-! ## Page fetcher (`get_item_listings_page`)

One network attempt can come back rate-limited (HTTP 429), fail at the
network level (`requests.exceptions.RequestException`, including
`raise_for_status`), be malformed (JSON `ValueError` or `success` false in
the body — both return `None` at once), or succeed.  A run of the fetcher
is driven by a script assigning an outcome to each attempt index. -/

/-- Parsed content of one successful page response: the fields
`parse_listings` reads. -/
structure PageData where
  total_count : Nat
  listinginfo : List (String × RawListing)
  assets : Assets
deriving DecidableEq

/-- Outcome of one network attempt. -/
inductive FetchOutcome where
  | rateLimited
  | netError
  | malformed
  | success (d : PageData)
deriving DecidableEq

/-- The retry loop of `get_item_listings_page` (lines 103-135).  `i` is the
0-based attempt index and the fuel is the number of loop iterations left
(`3 - i` at the top-level call, so the match on fuel `1` is the Python test
`attempt < max_retries - 1`).  The result pairs the returned value with the
list of `time.sleep` durations performed, in order: `60 * (attempt + 1)`
after HTTP 429 (always, even on the last attempt), `10` after a network
error when attempts remain, nothing for a malformed response, which returns
`None` at once. -/
def fetchLoop (script : Nat → FetchOutcome) : Nat → Nat → Option PageData × List Nat
  | _, 0 => (none, [])
  | i, fuel + 1 =>
    match script i with
    | .rateLimited =>
      let rest := fetchLoop script (i + 1) fuel
      (rest.1, 60 * (i + 1) :: rest.2)
    | .netError =>
      match fuel with
      | 0 => (none, [])
      | _ + 1 =>
        let rest := fetchLoop script (i + 1) fuel
        (rest.1, 10 :: rest.2)
    | .malformed => (none, [])
    | .success d => (some d, [])

/-- Translation of `get_item_listings_page`: `max_retries = 3` attempts
starting at attempt 0. -/
def get_item_listings_page (script : Nat → FetchOutcome) : Option PageData × List Nat :=
  fetchLoop script 0 3

/-! ## Listing scan controller (`parse_listings`)

The paginated loop is driven by a script assigning to each page index the
result of its (already retried) fetch, `none` standing for any failed fetch
— including rate-limit exhaustion.  Fuel bounds the recursion; every claim
is stated with enough fuel for the iterations it concerns. -/

/-- One state of the `while True` loop of `parse_listings` (lines 284-326):
current `start` offset, `total_count` once captured from the first
successful page (`none` before), and the accumulated `found_items`.
Returns the collected listings and the number of page fetches performed.
The total-count-zero test runs only on the first successful page (Python
guards it with `total_count is None`); afterwards the loop stops on an
empty `listinginfo`, otherwise processes the page, advances `start` by the
page size 100 and stops once `start` reaches the total. -/
def parseGo (pages : Nat → Option PageData) (appIdDefault item_name : String)
    (crit : Criteria) (notified : List String) :
    Nat → Nat → Option Nat → List FoundItem → List FoundItem × Nat
  | 0, _, _, acc => (acc, 0)
  | fuel + 1, start, tc, acc =>
    match pages (start / 100) with
    | none => (acc, 1)
    | some d =>
      if tc = none ∧ d.total_count = 0 then (acc, 1)
      else
        let t := tc.getD d.total_count
        if d.listinginfo = [] then (acc, 1)
        else
          let acc' := acc ++ processPage appIdDefault d.listinginfo d.assets item_name
            crit notified (start / 100 + 1)
          if t ≤ start + 100 then (acc', 1)
          else
            let rest := parseGo pages appIdDefault item_name crit notified fuel
              (start + 100) (some t) acc'
            (rest.1, rest.2 + 1)

/-- Translation of `parse_listings`: start at offset 0 with no captured
total and nothing collected. -/
def parse_listings (pages : Nat → Option PageData) (appIdDefault item_name : String)
    (crit : Criteria) (notified : List String) (fuel : Nat) : List FoundItem × Nat :=
  parseGo pages appIdDefault item_name crit notified fuel 0 none []

/-! ## Helper lemmas on the style accumulator -/

theorem mem_addStyle {x n : Nat} {s : List Nat} : x ∈ addStyle s n ↔ x ∈ s ∨ x = n := by
  by_cases h : n ∈ s
  · simp only [addStyle, if_pos h]
    exact ⟨Or.inl, fun hx => hx.elim id fun e => e ▸ h⟩
  · simp [addStyle, h]

theorem nodup_addStyle {s : List Nat} {n : Nat} (h : s.Nodup) : (addStyle s n).Nodup := by
  by_cases hn : n ∈ s
  · simpa [addStyle, hn] using h
  · simp [addStyle, hn, List.nodup_append, h]

theorem mem_collectStyles (x : Nat) (l : List Desc) : ∀ acc : List Nat,
    (x ∈ collectStyles l acc ↔ x ∈ acc ∨ x ∈ l.filterMap fun d => entryStyle d.value) := by
  induction l with
  | nil => intro acc; simp [collectStyles]
  | cons d rest ih =>
    intro acc
    cases h : entryStyle d.value with
    | some n =>
      simp only [collectStyles, h, ih, mem_addStyle, List.filterMap_cons, List.mem_cons]
      tauto
    | none =>
      simp only [collectStyles, h, ih, List.filterMap_cons]

theorem nodup_collectStyles (l : List Desc) : ∀ acc : List Nat,
    acc.Nodup → (collectStyles l acc).Nodup := by
  induction l with
  | nil => intro acc hacc; simpa [collectStyles] using hacc
  | cons d rest ih =>
    intro acc hacc
    cases h : entryStyle d.value with
    | some n => simpa only [collectStyles, h] using ih _ (nodup_addStyle hacc)
    | none => simpa only [collectStyles, h] using ih _ hacc

theorem collectStyles_perm_dedup (l : List Desc) :
    List.Perm (collectStyles l []) ((l.filterMap fun d => entryStyle d.value).dedup) := by
  rw [List.perm_ext_iff_of_nodup (nodup_collectStyles l [] List.nodup_nil)
    (List.nodup_dedup _)]
  intro a
  rw [mem_collectStyles, List.mem_dedup]
  simp

theorem extract_unlocked_styles_eq_sorted_dedup (l : List Desc) :
    extract_unlocked_styles l =
      List.insertionSort (· ≤ ·) ((l.filterMap fun d => entryStyle d.value).dedup) :=
  List.eq_of_perm_of_sorted
    (((List.perm_insertionSort _ _).trans (collectStyles_perm_dedup l)).trans
      (List.perm_insertionSort _ _).symm)
    (List.sorted_insertionSort _ _) (List.sorted_insertionSort _ _)

/-! ## Substring lemmas -/

theorem containsSub_of_isPrefixOf {n h : List Char} (hp : List.isPrefixOf n h = true) :
    containsSub n h = true := by
  cases h with
  | nil =>
    cases n with
    | nil => rfl
    | cons a as => simp [List.isPrefixOf] at hp
  | cons c rest => simp [containsSub, hp]

theorem containsSub_of_cons {c : Char} {n h : List Char}
    (hc : containsSub (c :: n) h = true) : containsSub n h = true := by
  induction h with
  | nil => simp [containsSub, List.isEmpty] at hc
  | cons d rest ih =>
    simp only [containsSub, Bool.or_eq_true] at hc ⊢
    rcases hc with hp | hrest
    · simp only [List.isPrefixOf, Bool.and_eq_true, beq_iff_eq] at hp
      exact Or.inr (containsSub_of_isPrefixOf hp.2)
    · exact Or.inr (ih hrest)

/-! ## Claim C1: `extract_unlocked_styles` -/

/-- Claim C1, counterexample to the stated locked-marker case-insensitivity:
the stripped text of `"Upgrade Style 7 (LOCKED)"` contains the locked marker
`"Locked"` case-insensitively, yet the entry is not skipped — the code's
pattern `[Ll]ocked` only covers the two capitalizations — and the style
number 7 it contributes makes the result `[7]`, not the `[]` the claim
requires. -/
theorem extract_unlocked_styles_ci_counterexample :
    containsCI "Locked".toList (cleanOf "Upgrade Style 7 (LOCKED)") = true
    ∧ extract_unlocked_styles [⟨"", "Upgrade Style 7 (LOCKED)"⟩] = [7] :=
  ⟨by decide, by decide⟩

/-- Claim C1 (amended): for every description list the result of
`extract_unlocked_styles` is the ascending sort of the deduplicated
per-entry style numbers, hence sorted and duplicate-free; a style number is
in the result exactly when some entry contributes it; an entry whose
markup-stripped text matches the locked marker (the literal patterns
`Locked`/`locked`, `Заблокировано`/`заблокировано`,
`Заблоковано`/`заблоковано` as substrings — the first letter in either
case, not fully case-insensitive) contributes nothing, each other entry is
tried against the EN "Upgrade Style N", EN "Style N" and RU
"Стиль-улучшение N" patterns in this order stopping at the first match
(`entryStyle`); and the input `["Upgrade Style 6", "Upgrade Style 7
(Locked)"]` yields `[6]`. -/
theorem extract_unlocked_styles_spec (l : List Desc) :
    extract_unlocked_styles l =
      List.insertionSort (· ≤ ·) ((l.filterMap fun d => entryStyle d.value).dedup)
    ∧ (extract_unlocked_styles l).Sorted (· ≤ ·)
    ∧ (extract_unlocked_styles l).Nodup
    ∧ (∀ n, n ∈ extract_unlocked_styles l ↔ ∃ d ∈ l, entryStyle d.value = some n)
    ∧ (∀ d ∈ l, lockedSearch (cleanOf d.value) = true → entryStyle d.value = none)
    ∧ extract_unlocked_styles [⟨"", "Upgrade Style 6"⟩, ⟨"", "Upgrade Style 7 (Locked)"⟩]
        = [6] := by
  refine ⟨extract_unlocked_styles_eq_sorted_dedup l, ?_, ?_, ?_, ?_, by decide⟩
  · exact List.sorted_insertionSort _ _
  · exact (List.perm_insertionSort _ _).nodup_iff.mpr
      (nodup_collectStyles l [] List.nodup_nil)
  · intro n
    rw [extract_unlocked_styles, (List.perm_insertionSort _ _).mem_iff,
      mem_collectStyles, List.mem_filterMap]
    simp
  · intro d _ hlock
    simp [entryStyle, hlock]

/-! ## Claim C10: entries mentioning "Unlocked" -/

/-- Claim C10, counterexample to the "in any letter case" reading: the
stripped text of `"Style 6 UNLOCKED"` contains `"Unlocked"`
case-insensitively, yet the entry is not skipped (the pattern `[Ll]ocked`
does not match the upper-case run) and it contributes the style number 6. -/
theorem unlocked_ci_counterexample :
    containsCI "Unlocked".toList (cleanOf "Style 6 UNLOCKED") = true
    ∧ extract_unlocked_styles [⟨"", "Style 6 UNLOCKED"⟩] = [6] :=
  ⟨by decide, by decide⟩

/-- Claim C10 (amended): every description entry whose markup-stripped text
contains the substring `"Unlocked"` or `"unlocked"` literally (these are the
capitalizations in which the code's `[Ll]ocked` pattern fires inside the
word) is skipped entirely by `extract_unlocked_styles` and contributes no
style number; in particular the comment-documented format
`"Style 6 Unlocked"` yields the empty result. -/
theorem unlocked_entries_skipped (value : String)
    (h : containsSub "Unlocked".toList (cleanOf value) = true ∨
      containsSub "unlocked".toList (cleanOf value) = true) :
    entryStyle value = none
    ∧ extract_unlocked_styles [⟨"", "Style 6 Unlocked"⟩] = [] := by
  have hl : containsSub "locked".toList (cleanOf value) = true := by
    rcases h with h | h
    · have e : "Unlocked".toList = 'U' :: 'n' :: "locked".toList := rfl
      rw [e] at h
      exact containsSub_of_cons (containsSub_of_cons h)
    · have e : "unlocked".toList = 'u' :: 'n' :: "locked".toList := rfl
      rw [e] at h
      exact containsSub_of_cons (containsSub_of_cons h)
  have hlock : lockedSearch (cleanOf value) = true := by
    unfold lockedSearch
    rw [hl]
    simp
  exact ⟨by simp [entryStyle, hlock], by decide⟩

/-- Witness for the amended C10 at the concrete entry the code's own
comment documents. -/
theorem unlocked_entries_skipped_witness :
    entryStyle "Style 6 Unlocked" = none
    ∧ extract_unlocked_styles [⟨"", "Style 6 Unlocked"⟩] = [] :=
  unlocked_entries_skipped "Style 6 Unlocked" (Or.inl (by decide))

/-! ## Claim C2: gem extraction -/

/-- Spec reading of the fallback strategy, in the specification's own
words: collect every non-empty stripped entry from the first entry
containing `"Socket"` or `"Gem"` onward, excluding `"Empty Socket"`. -/
def specSocketGems (l : List Desc) : List (List Char) :=
  (l.dropWhile fun d => !socketTrigger d).filterMap socketCollect

theorem socketGemsGo_true (l : List Desc) :
    socketGemsGo true l = l.filterMap socketCollect := by
  induction l with
  | nil => rfl
  | cons d rest ih =>
    cases c : socketCollect d <;>
      simp [socketGemsGo, c, ih, List.filterMap_cons]

theorem extract_socket_gems_eq_spec (l : List Desc) :
    extract_socket_gems l = specSocketGems l := by
  rw [extract_socket_gems]
  induction l with
  | nil => rfl
  | cons d rest ih =>
    by_cases ht : socketTrigger d = true
    · rw [specSocketGems, List.dropWhile_cons_of_neg (by simp [ht])]
      cases c : socketCollect d <;>
        simp [socketGemsGo, ht, c, socketGemsGo_true, List.filterMap_cons]
    · have ht' : socketTrigger d = false := by simpa using ht
      rw [specSocketGems, List.dropWhile_cons_of_pos (by simp [ht'])]
      simpa [socketGemsGo, ht'] using ih

/-- Claim C2, counterexample to strategy (a) as stated: the entry
`"Prismatic<i>:</i> Burning Red"` has markup-stripped text containing
`"Prismatic:"`, so the claim requires strategy (a) to collect it and the
result to be non-empty; the code however tests `"Prismatic:" in value` on
the raw, un-stripped value, where the tags break the substring, and the
fallback triggers on neither `"Socket"` nor `"Gem"`, so the code returns
`[]`. -/
theorem gems_strategy_counterexample :
    containsSub "Prismatic:".toList (cleanOf "Prismatic<i>:</i> Burning Red") = true
    ∧ listingGems [⟨"text", "Prismatic<i>:</i> Burning Red"⟩] = [] :=
  ⟨by decide, by decide⟩

/-- Claim C2 (amended): gem extraction tries two strategies in order with
the first non-empty result winning: (a) collect, markup-stripped, exactly
those entries accepted by `gemFromDesc` — the raw value contains
`"Prismatic:"` or `"Ethereal:"` and strips to non-empty text, or the entry
has type `"html"`, its raw value contains `"color"`, and its non-empty
stripped text contains `"Gem"`, `"Prismatic"` or `"Ethereal"`; (b)
otherwise collect every non-empty stripped entry from the first entry whose
raw value contains `"Socket"` or `"Gem"` onward, excluding the literal
`"Empty Socket"`.  No other entry ever contributes a gem string. -/
theorem listing_gems_spec (l : List Desc) :
    listingGems l =
      (if l.filterMap gemFromDesc = [] then specSocketGems l
        else l.filterMap gemFromDesc)
    ∧ (∀ g ∈ listingGems l,
        (∃ d ∈ l, gemFromDesc d = some g) ∨
        (l.filterMap gemFromDesc = [] ∧ g ∈ specSocketGems l)) := by
  have h1 : listingGems l =
      (if l.filterMap gemFromDesc = [] then specSocketGems l
        else l.filterMap gemFromDesc) := by
    rw [listingGems, extract_gems_from_descriptions, extract_socket_gems_eq_spec]
  refine ⟨h1, ?_⟩
  intro g hg
  rw [h1] at hg
  by_cases he : l.filterMap gemFromDesc = []
  · rw [if_pos he] at hg
    exact Or.inr ⟨he, hg⟩
  · rw [if_neg he] at hg
    exact Or.inl (List.mem_filterMap.mp hg)

/-! ## Claim C3: tag-derived maximum style and its fallback expansion -/

/-- The pattern matches of one tag: first match of the EN pattern and first
match of the RU pattern against the scanned tag string. -/
def tagMatchesOf (t : Tag) : List Nat :=
  (searchWith tagEnAt (tagName t).toList).toList ++
    (searchWith ruStyleAt (tagName t).toList).toList

/-- All pattern matches over a tag list, in order. -/
def tagStyleMatches : List Tag → List Nat
  | [] => []
  | t :: rest => tagMatchesOf t ++ tagStyleMatches rest

/-- Spec reading of the tag scan, amended: the maximum of all pattern
matches, `none` when there is no match — or when every match is 0, since
the code's `max_style if max_style > 0 else None` cannot tell those apart. -/
def claimMaxStyle (tags : List Tag) : Option Nat :=
  if (tagStyleMatches tags).foldr max 0 = 0 then none
  else some ((tagStyleMatches tags).foldr max 0)

theorem foldl_tagStep (tags : List Tag) : ∀ a : Nat,
    tags.foldl tagStep a = max a ((tagStyleMatches tags).foldr max 0) := by
  induction tags with
  | nil => intro a; simp [tagStyleMatches]
  | cons t rest ih =>
    intro a
    rw [List.foldl_cons, ih, tagStyleMatches, List.foldr_append]
    cases hen : searchWith tagEnAt (tagName t).data with
    | none =>
      cases hru : searchWith ruStyleAt (tagName t).data with
      | none => simp [tagStep, tagMatchesOf, hen, hru]
      | some n => simp [tagStep, tagMatchesOf, hen, hru, max_assoc]
    | some m =>
      cases hru : searchWith ruStyleAt (tagName t).data with
      | none => simp [tagStep, tagMatchesOf, hen, hru, max_assoc]
      | some n => simp [tagStep, tagMatchesOf, hen, hru, max_assoc]

/-- Claim C3, counterexample to "none only if no tag matches": in the tag
list `[{localized: "", name: "Style 0"}]` the EN pattern does match the
scanned tag string, with number 0, yet the function returns `none` (the
claim requires the maximum matched number, 0). -/
theorem max_style_zero_counterexample :
    get_max_style_from_tags [⟨"", "Style 0"⟩] = none
    ∧ searchWith tagEnAt (tagName ⟨"", "Style 0"⟩).toList = some 0 :=
  ⟨by decide, by decide⟩

/-- Claim C3 (amended): `get_max_style_from_tags` returns the maximum over
all first matches of the EN and RU numeric patterns against each tag's
localized name or name, except that it returns `none` when no tag matches
— or when the maximum matched number is 0; and during normalization,
whenever description-based extraction is empty and the tag-derived maximum
is `some k`, the listing's styles become exactly `1..k`. -/
theorem get_max_style_spec (tags : List Tag) (descriptions : List Desc) (k : Nat) :
    get_max_style_from_tags tags = claimMaxStyle tags
    ∧ (extract_unlocked_styles descriptions = [] →
        get_max_style_from_tags tags = some k →
        normalizedStyles descriptions tags = List.range' 1 k) := by
  constructor
  · rw [get_max_style_from_tags, claimMaxStyle]
    by_cases he : tags = []
    · subst he; simp [tagStyleMatches]
    · rw [if_neg he, foldl_tagStep]
      by_cases hz : (tagStyleMatches tags).foldr max 0 = 0
      · simp [hz]
      · simp [hz, Nat.pos_of_ne_zero hz]
  · intro h1 h2
    simp [normalizedStyles, h1, h2]

/-- Witness for the amended C3 at a concrete tag list. -/
theorem get_max_style_spec_witness :
    get_max_style_from_tags [Tag.mk "" "Style 3"] = claimMaxStyle [Tag.mk "" "Style 3"]
    ∧ normalizedStyles [] [Tag.mk "" "Style 3"] = [1, 2, 3] :=
  ⟨(get_max_style_spec [Tag.mk "" "Style 3"] [] 3).1,
    (get_max_style_spec [Tag.mk "" "Style 3"] [] 3).2 (by decide) (by decide)⟩

/-! ## Claims C4-C7: notified-set skip, filter engine, price -/

theorem processListing_id {appIdDefault : String} {assets : Assets} {item_name : String}
    {crit : Criteria} {page_num : Nat} {lid : String} {rec : RawListing} {it : FoundItem}
    (h : processListing appIdDefault assets item_name crit page_num lid rec = some it) :
    it.listing_id = lid := by
  rw [processListing] at h
  split at h
  · cases h
  · split at h
    · cases h
    · split at h
      · cases h
      · rw [Option.some_inj] at h
        subst h
        rfl

theorem processPage_eq_filter (appIdDefault : String) (li : List (String × RawListing))
    (assets : Assets) (item_name : String) (crit : Criteria) (notified : List String)
    (page_num : Nat) :
    processPage appIdDefault li assets item_name crit notified page_num =
      (li.filter fun p => decide (p.1 ∉ notified)).filterMap
        (fun p => processListing appIdDefault assets item_name crit page_num p.1 p.2) := by
  induction li with
  | nil => rfl
  | cons p rest ih =>
    simp only [processPage, List.filterMap_cons, List.filter_cons] at *
    by_cases hm : p.1 ∈ notified
    · simp [hm, ih]
    · simp [hm, ih, List.filterMap_cons]

/-- Claim C4: a listing whose identifier is in the notified set at scan time
is never normalized nor returned — processing a page equals filtering the
already-notified identifiers away first and only then normalizing, so a page
of all-notified identifiers produces nothing; no returned item carries a
notified identifier; and the notified set only grows, via
`mark_as_notified`, which inserts the given identifier and keeps every
present one. -/
theorem notified_skip_invariant (appIdDefault : String) (li : List (String × RawListing))
    (assets : Assets) (item_name : String) (crit : Criteria) (notified : List String)
    (page_num : Nat) (lid : String) :
    processPage appIdDefault li assets item_name crit notified page_num =
      (li.filter fun p => decide (p.1 ∉ notified)).filterMap
        (fun p => processListing appIdDefault assets item_name crit page_num p.1 p.2)
    ∧ (∀ it ∈ processPage appIdDefault li assets item_name crit notified page_num,
        it.listing_id ∉ notified)
    ∧ ((∀ p ∈ li, p.1 ∈ notified) →
        processPage appIdDefault li assets item_name crit notified page_num = [])
    ∧ (∀ x ∈ notified, x ∈ mark_as_notified notified lid)
    ∧ lid ∈ mark_as_notified notified lid := by
  refine ⟨processPage_eq_filter _ _ _ _ _ _ _, ?_, ?_, ?_, ?_⟩
  · intro it hit
    rw [processPage, List.mem_filterMap] at hit
    obtain ⟨p, _, hp⟩ := hit
    by_cases hm : p.1 ∈ notified
    · rw [if_pos hm] at hp
      cases hp
    · rw [if_neg hm] at hp
      rw [processListing_id hp]
      exact hm
  · intro hall
    rw [processPage_eq_filter]
    have : (li.filter fun p => decide (p.1 ∉ notified)) = [] := by
      rw [List.filter_eq_nil_iff]
      intro p hp
      simp [hall p hp]
    rw [this, List.filterMap_nil]
  · intro x hx
    rw [mark_as_notified]
    split
    · exact hx
    · exact List.mem_append_left _ hx
  · rw [mark_as_notified]
    split
    · assumption
    · simp

/-- Claim C5: with all three criteria empty (no desired gems, no desired
styles, maximum price 0) every listing is accepted by the filter — the
criteria impose no constraint — and in particular a listing with
`converted_price = 1000`, `converted_fee = 500` (so 1500 cents) is included
under maximum price 0. -/
theorem empty_criteria_accepts (appIdDefault : String) (assets : Assets)
    (item_name : String) (page_num : Nat) (lid : String) (rec : RawListing) :
    (processListing appIdDefault assets item_name ⟨[], [], 0⟩ page_num lid rec).isSome = true
    ∧ (processListing appIdDefault assets item_name ⟨[], [], 0⟩ page_num lid
        ⟨some 1000, some 500, none, none, none⟩).isSome = true
    ∧ priceCentsOf ⟨some 1000, some 500, none, none, none⟩ = 1500 := by
  have hgen : ∀ r : RawListing,
      (processListing appIdDefault assets item_name ⟨[], [], 0⟩ page_num lid r).isSome
        = true := by
    intro r
    have hp : priceRejected (0 : ℚ) r = false := by simp [priceRejected]
    simp [processListing, hp]
  exact ⟨hgen rec, hgen _, rfl⟩

/-- Claim C6: with a non-empty desired-gems criterion the gems filter keeps
a listing exactly when some desired name, lower-cased, is a substring of
some lower-cased extracted gem string (many-to-many any-match): a surviving
listing passed the test, the test is that existential, and the scenario
`["Prismatic: Frostbite"]` against `["frost"]` matches. -/
theorem gems_filter_spec (appIdDefault : String) (assets : Assets) (item_name : String)
    (page_num : Nat) (lid : String) (rec : RawListing) (desired : List String)
    (dstyles : List Nat) (mp : ℚ) (hne : desired ≠ []) :
    ((processListing appIdDefault assets item_name ⟨desired, dstyles, mp⟩ page_num lid
        rec).isSome = true →
      gemsMatch (gemsOf appIdDefault assets rec) desired = true)
    ∧ (gemsMatch (gemsOf appIdDefault assets rec) desired = true ↔
        ∃ d ∈ desired, ∃ g ∈ gemsOf appIdDefault assets rec,
          containsSub (d.toList.map pyLower) (g.map pyLower) = true)
    ∧ gemsMatch ["Prismatic: Frostbite".toList] ["frost"] = true := by
  refine ⟨?_, ?_, by decide⟩
  · intro h
    rw [processListing] at h
    split at h
    · cases h
    · split at h
      · cases h
      · next hcond =>
        by_cases hg : gemsMatch (gemsOf appIdDefault assets rec) desired = true
        · exact hg
        · exact absurd ⟨hne, by simpa using hg⟩ hcond
  · rw [gemsMatch]
    simp only [List.any_eq_true, List.mem_map]
    constructor
    · rintro ⟨d, hd, g', ⟨g, hg, rfl⟩, hc⟩
      exact ⟨d, hd, g, hg, hc⟩
    · rintro ⟨d, hd, g, hg, hc⟩
      exact ⟨d, hd, g.map pyLower, ⟨g, hg, rfl⟩, hc⟩

/-- Witness for C6 at the scenario input, discharging the non-emptiness
hypothesis. -/
theorem gems_filter_spec_witness :
    gemsMatch ["Prismatic: Frostbite".toList] ["frost"] = true :=
  (gems_filter_spec "570" [] "x" 1 "L" ⟨none, none, none, none, none⟩ ["frost"] [] 0
    (by decide)).2.2

/-- Claim C7: the price of a raw listing is `converted_price +
converted_fee` in cents with absent fields defaulting to 0, and with the
maximum-price criterion standing for `K` cents the price test rejects
exactly when `K` is strictly positive and the listing price strictly
exceeds `K`; a rejected listing is filtered out, and equality at the
threshold is accepted.  Python's floats are modelled as exact rationals. -/
theorem price_filter_spec (cp cf : Option Nat) (aa ac ai : Option String) (K : Nat)
    (appIdDefault : String) (assets : Assets) (item_name : String) (page_num : Nat)
    (lid : String) (dg : List String) (ds : List Nat) :
    priceCentsOf ⟨cp, cf, aa, ac, ai⟩ = cp.getD 0 + cf.getD 0
    ∧ (priceRejected ((K : ℚ) / 100) ⟨cp, cf, aa, ac, ai⟩ = true ↔
        0 < K ∧ K < priceCentsOf ⟨cp, cf, aa, ac, ai⟩)
    ∧ (priceRejected ((K : ℚ) / 100) ⟨cp, cf, aa, ac, ai⟩ = true →
        processListing appIdDefault assets item_name ⟨dg, ds, (K : ℚ) / 100⟩ page_num lid
          ⟨cp, cf, aa, ac, ai⟩ = none)
    ∧ (K = priceCentsOf ⟨cp, cf, aa, ac, ai⟩ →
        priceRejected ((K : ℚ) / 100) ⟨cp, cf, aa, ac, ai⟩ = false) := by
  have h100 : (0 : ℚ) < 100 := by norm_num
  refine ⟨rfl, ?_, ?_, ?_⟩
  · rw [priceRejected, decide_eq_true_eq]
    constructor
    · rintro ⟨h1, h2⟩
      rw [div_lt_div_iff_of_pos_right h100] at h2
      refine ⟨?_, by exact_mod_cast h2⟩
      by_contra hk
      have : K = 0 := by omega
      subst this
      simp at h1
    · rintro ⟨h1, h2⟩
      constructor
      · positivity
      · rw [div_lt_div_iff_of_pos_right h100]
        exact_mod_cast h2
  · intro h
    simp [processListing, h]
  · intro he
    rw [priceRejected]
    simp [he]

/-- Witness for C7: a 1500-cent listing strictly above a 1400-cent bound is
rejected, via the theorem's characterization. -/
theorem price_filter_spec_witness :
    priceRejected ((1400 : ℚ) / 100) ⟨some 1000, some 500, none, none, none⟩ = true :=
  (price_filter_spec (some 1000) (some 500) none none none 1400 "570" [] "x" 1 "L" []
    []).2.1.mpr ⟨by decide, by decide⟩

/-! ## Claim C8: page-fetch retry policy -/

/-- Claim C8: per page fetch, HTTP 429 waits `60 × attemptNumber` seconds
(attempts 1, 2, 3) and retries up to 3 attempts, exhaustion returning the
failure value `none` (no exception); a network-level error waits a fixed 10
seconds and retries up to 3 attempts total, exhaustion likewise returning
`none`; a malformed or non-success response body fails at once with no
retry and no wait, also mid-retry-sequence; a success returns the parsed
page.  Each conjunct fixes a script of attempt outcomes and checks the
returned value together with the exact sleep schedule. -/
theorem fetch_retry_spec (script : Nat → FetchOutcome) :
    (∀ d, script 0 = .success d → get_item_listings_page script = (some d, []))
    ∧ (script 0 = .malformed → get_item_listings_page script = (none, []))
    ∧ ((∀ i, i < 3 → script i = .rateLimited) →
        get_item_listings_page script = (none, [60, 120, 180]))
    ∧ ((∀ i, i < 3 → script i = .netError) →
        get_item_listings_page script = (none, [10, 10]))
    ∧ (∀ d, script 0 = .rateLimited → script 1 = .rateLimited → script 2 = .success d →
        get_item_listings_page script = (some d, [60, 120]))
    ∧ (∀ d, script 0 = .rateLimited → script 1 = .netError → script 2 = .success d →
        get_item_listings_page script = (some d, [60, 10]))
    ∧ (script 0 = .rateLimited → script 1 = .malformed →
        get_item_listings_page script = (none, [60])) := by
  refine ⟨?_, ?_, ?_, ?_, ?_, ?_, ?_⟩
  · intro d h0
    simp [get_item_listings_page, fetchLoop, h0]
  · intro h0
    simp [get_item_listings_page, fetchLoop, h0]
  · intro h
    simp [get_item_listings_page, fetchLoop, h 0 (by omega), h 1 (by omega),
      h 2 (by omega)]
  · intro h
    simp [get_item_listings_page, fetchLoop, h 0 (by omega), h 1 (by omega),
      h 2 (by omega)]
  · intro d h0 h1 h2
    simp [get_item_listings_page, fetchLoop, h0, h1, h2]
  · intro d h0 h1 h2
    simp [get_item_listings_page, fetchLoop, h0, h1, h2]
  · intro h0 h1
    simp [get_item_listings_page, fetchLoop, h0, h1]

/-- Witness for C8: three consecutive rate-limited attempts exhaust the
retries, returning the failure value after sleeping 60, 120 and 180
seconds. -/
theorem fetch_retry_spec_witness :
    get_item_listings_page (fun _ => FetchOutcome.rateLimited) = (none, [60, 120, 180]) :=
  (fetch_retry_spec (fun _ => FetchOutcome.rateLimited)).2.2.1 (fun _ _ => rfl)

/-! ## Claim C9: scan degradation and partial results -/

/-- Claim C9: if the first page fetch fails (any failure, rate-limit
exhaustion included) the scan returns the empty result after exactly one
fetch, without trying a second page; likewise when the first page reports
`total_count = 0`; and when a second-page fetch fails after a successful,
non-empty first page (with more listings still expected), the scan stops at
two fetches but returns the listings already collected from the first page
— partial results are preserved.  The embedding is total, so no exception
is possible. -/
theorem scan_degradation_spec (pages : Nat → Option PageData)
    (appIdDefault item_name : String) (crit : Criteria) (notified : List String)
    (fuel : Nat) :
    (pages 0 = none →
      parse_listings pages appIdDefault item_name crit notified (fuel + 1) = ([], 1))
    ∧ (∀ d, pages 0 = some d → d.total_count = 0 →
        parse_listings pages appIdDefault item_name crit notified (fuel + 1) = ([], 1))
    ∧ (∀ d, pages 0 = some d → 100 < d.total_count → d.listinginfo ≠ [] →
        pages 1 = none →
        parse_listings pages appIdDefault item_name crit notified (fuel + 2) =
          (processPage appIdDefault d.listinginfo d.assets item_name crit notified 1,
            2)) := by
  refine ⟨?_, ?_, ?_⟩
  · intro h0
    simp [parse_listings, parseGo, h0]
  · intro d h0 htc
    simp [parse_listings, parseGo, h0, htc]
  · intro d h0 htc hli h1
    have hnz : ¬ d.total_count = 0 := by omega
    have hle : ¬ d.total_count ≤ 0 + 100 := by omega
    simp [parse_listings, parseGo, h0, h1, hnz, hli, hle]

/-- Witness for C9: a failing first fetch yields the empty scan after one
fetch. -/
theorem scan_degradation_spec_witness :
    parse_listings (fun _ => none) "570" "item" ⟨[], [], 0⟩ [] 1 = ([], 1) :=
  (scan_degradation_spec (fun _ => none) "570" "item" ⟨[], [], 0⟩ [] 0).1 rfl

/-! ## Concrete witnesses for the remaining claims -/

/-- Witness for the amended C1 at the claim's own scenario. -/
theorem extract_unlocked_styles_spec_witness :
    extract_unlocked_styles [⟨"", "Upgrade Style 6"⟩, ⟨"", "Upgrade Style 7 (Locked)"⟩]
      = [6] :=
  (extract_unlocked_styles_spec []).2.2.2.2.2

/-- Witness for the amended C2 at a one-entry list taken by strategy (a). -/
theorem listing_gems_spec_witness :
    listingGems [Desc.mk "text" "Prismatic: Amethyst"] =
      (if [Desc.mk "text" "Prismatic: Amethyst"].filterMap gemFromDesc = []
        then specSocketGems [Desc.mk "text" "Prismatic: Amethyst"]
        else [Desc.mk "text" "Prismatic: Amethyst"].filterMap gemFromDesc) :=
  (listing_gems_spec [Desc.mk "text" "Prismatic: Amethyst"]).1

/-- Witness for C4: marking a fresh identifier puts it in the set. -/
theorem notified_skip_invariant_witness :
    "L42" ∈ mark_as_notified [] "L42" :=
  (notified_skip_invariant "570" [] [] "item" ⟨[], [], 0⟩ [] 1 "L42").2.2.2.2

/-- Witness for C5 at the scenario listing. -/
theorem empty_criteria_accepts_witness :
    priceCentsOf ⟨some 1000, some 500, none, none, none⟩ = 1500 :=
  (empty_criteria_accepts "570" [] "item" 1 "L"
    ⟨some 1000, some 500, none, none, none⟩).2.2

end Steam
